import Mathlib

/-!
Verification of the element-attachment / overlay-system core of
`solid-createattach-showcase`.

The development shallowly embeds three layers of the source:

* `CreateAttach` — the `createAttach` primitive (`src/createAttach.ts`):
  an element slot plus a keyed listener map with cleanup capture.
  Elements are identified by `Nat` ids; handlers are identified by `Nat`
  ids and their behaviour (whether an invocation returns a disposer for a
  given element argument) is a parameter `beh : Nat → Option Nat → Bool`.
  Disposers are allocated fresh `Nat` ids from a counter; the `invoked`
  field records every disposer invocation in order, and `calls` records
  every handler invocation `(handler id, element argument)` in order.

* `BoolLazyFalse` — the three-state visibility machine
  (`src/createBoolLazyFalse/createAttach.ts`): `FALSE`, `BECOMING_FALSE`,
  `TRUE`, a `setTimeout`/`clearTimeout` timer world (each scheduled timer
  gets a fresh handle; `clearTimeout` unschedules, firing unschedules),
  the single `timeout` variable and the stored `onChange` callback.
  The `createEffect(on(state, …))` body is inlined at each state change,
  which is faithful to the single-threaded scheduling of the source.

* `OverlaySystem` — the registry (`src/OverlaySystem/Provider.tsx`):
  overlay map, insertion-ordered open set, topmost id, scroll-lock count,
  with the per-entry visibility machine carried at the bookkeeping level
  (state, pending-timer flag, pending completion-callback kind).
  Lifecycle hooks are modelled by their only observable effect here: an
  optional constant cancel decision.  The scroll-lock `createEffect`
  clamp runs after every operation.  Replacing a registered id leaves the
  old entry's pending exit timer alive (the source never disposes it);
  such timers are kept in an `orphans` list.
-/

namespace AssocList

/-- `Map.get`: first binding for a key in an association list. -/
def lookupKey (k : String) : List (String × α) → Option α
  | [] => none
  | (k2, v) :: rest => if k2 = k then some v else lookupKey k rest

/-- `Map.set`: replace in place (JS `Map.set` keeps the key's position),
append when absent. -/
def setKey (k : String) (v : α) : List (String × α) → List (String × α)
  | [] => [(k, v)]
  | (k2, v2) :: rest => if k2 = k then (k2, v) :: rest else (k2, v2) :: setKey k v rest

/-- `Map.delete`: remove the binding for a key. -/
def eraseKey (k : String) : List (String × α) → List (String × α)
  | [] => []
  | (k2, v2) :: rest => if k2 = k then rest else (k2, v2) :: eraseKey k rest

/-- `Map.has`. -/
def hasKey (k : String) (l : List (String × α)) : Bool :=
  (lookupKey k l).isSome

end AssocList

open AssocList

namespace CreateAttach

/-- `EventData` from `createAttach`: handler, `once` flag, captured disposer. -/
structure EventData where
  hid : Nat
  once : Bool
  cleanupFn : Option Nat
deriving DecidableEq, Repr

/-- The mutable state of one `createAttach` instance, plus the observable
traces (`invoked` disposers, handler `calls`) and the disposer allocator. -/
structure AttachState where
  element : Option Nat
  listeners : Option (List (String × EventData))
  nextDisposer : Nat
  invoked : List Nat
  calls : List (Nat × Option Nat)
deriving DecidableEq, Repr

/-- The captured cleanups of a listener map, in registration order. -/
def cleanupsOf (l : List (String × EventData)) : List Nat :=
  l.filterMap (fun p => p.2.cleanupFn)

/-- The listener loop of `attach`: invoke each handler with the new
element, capture a returned disposer (`data.cleanupFn = maybeCleanup`,
and the old disposer is kept when nothing is returned), then for `once`
listeners invoke the current cleanup and delete the entry. -/
structure FireResult where
  kept : List (String × EventData)
  next : Nat
  invoked : List Nat
  calls : List (Nat × Option Nat)
deriving DecidableEq, Repr

def fireAll (beh : Nat → Option Nat → Bool) (el : Option Nat) :
    List (String × EventData) → Nat → List Nat → List (Nat × Option Nat) → FireResult
  | [], n, inv, cs => ⟨[], n, inv, cs⟩
  | (k, d) :: rest, n, inv, cs =>
      let cs2 := cs ++ [(d.hid, el)]
      let d2 := if beh d.hid el then { d with cleanupFn := some n } else d
      let n2 := if beh d.hid el then n + 1 else n
      if d.once then
        fireAll beh el rest n2 (inv ++ d2.cleanupFn.toList) cs2
      else
        let r := fireAll beh el rest n2 inv cs2
        { r with kept := (k, d2) :: r.kept }

/-- `attach(el)`: no-op on identical element; otherwise run every
listener's captured cleanup against the previous element (when both an
element and a listener map exist), swap the element, and re-fire every
listener.  (`globalThis.document` is assumed present.) -/
def attach (beh : Nat → Option Nat → Bool) (el : Option Nat) (s : AttachState) : AttachState :=
  if el = s.element then s
  else
    let inv1 :=
      match s.element, s.listeners with
      | some _, some l => s.invoked ++ cleanupsOf l
      | _, _ => s.invoked
    match s.listeners with
    | none => { s with element := el, invoked := inv1 }
    | some l =>
        let r := fireAll beh el l s.nextDisposer inv1 s.calls
        { element := el, listeners := some r.kept, nextDisposer := r.next,
          invoked := r.invoked, calls := r.calls }

/-- `onAttach(handler, key, once)`: run the cleanup of any existing
listener under `key`, then store the replacement (fresh `EventData`,
no captured cleanup).  The handler is not invoked here. -/
def onAttach (hid : Nat) (key : String) (once : Bool) (s : AttachState) : AttachState :=
  let oldC : Option Nat := (s.listeners.bind (lookupKey key)).bind (fun d => d.cleanupFn)
  let inv := s.invoked ++ oldC.toList
  let data : EventData := ⟨hid, once, none⟩
  match s.listeners with
  | some l => { s with invoked := inv, listeners := some (setKey key data l) }
  | none => { s with invoked := inv, listeners := some [(key, data)] }

/-- `removeHandler` inside `detach`: run the keyed listener's cleanup and
delete it, reporting whether it existed. -/
def removeHandler (key : String) (s : AttachState) : AttachState × Bool :=
  let oldC : Option Nat := (s.listeners.bind (lookupKey key)).bind (fun d => d.cleanupFn)
  let s2 := { s with invoked := s.invoked ++ oldC.toList }
  match s2.listeners with
  | some l => ({ s2 with listeners := some (eraseKey key l) }, hasKey key l)
  | none => (s2, false)

/-- `detach()` with no argument: run every cleanup, drop the listener
map, clear the element. -/
def detachAll (s : AttachState) : AttachState :=
  let s2 :=
    match s.listeners with
    | some l =>
        { s with
          invoked := s.invoked ++ cleanupsOf l,
          listeners := none }
    | none => s
  { s2 with element := none }

/-- The options-object form of `detach`. -/
structure DetachOptions where
  key : Option String := none
  clearEvents : Bool := true
  clearDefaultEvent : Bool := true
  eventsOnly : Bool := false
deriving DecidableEq, Repr

/-- `detach(options)`: the `key` branch delegates to `removeHandler`;
the incompatible-parameter combination throws before any cleanup runs;
otherwise cleanups run for the selected listeners, the listener map is
rebuilt per the flags (retaining the `"default"` entry copies its
captured cleanup), and the element is cleared unless `eventsOnly`. -/
def detachWithOptions (o : DetachOptions) (s : AttachState) :
    Except String (AttachState × Option Bool) :=
  match o.key with
  | some k =>
      let r := removeHandler k s
      .ok (r.1, some r.2)
  | none =>
      if o.eventsOnly && !o.clearEvents && !o.clearDefaultEvent then
        .error "Incompatible parameters: eventsOnly=true requires either clearEvents=true OR clearDefaultEvent=true"
      else
        let s2 :=
          match s.listeners with
          | none => s
          | some l =>
              let inv := s.invoked ++
                cleanupsOf (l.filter (fun p => o.clearEvents || (o.clearDefaultEvent && p.1 == "default")))
              let ls : Option (List (String × EventData)) :=
                if o.clearEvents && o.clearDefaultEvent then none
                else if o.clearEvents && !o.clearDefaultEvent then
                  match lookupKey "default" l with
                  | some d => some [("default", d)]
                  | none => none
                else if o.clearDefaultEvent then some (eraseKey "default" l)
                else some l
              { s with invoked := inv, listeners := ls }
        .ok (if o.eventsOnly then s2 else { s2 with element := none }, none)

/-- One public operation on a `createAttach` instance. -/
inductive AOp
  | attachOp (el : Option Nat)
  | onAttachOp (hid : Nat) (key : String) (once : Bool)
  | detachAllOp
  | detachKeyOp (key : String)
  | detachOptsOp (o : DetachOptions)
deriving DecidableEq, Repr

/-- Apply one operation.  A thrown `detach` error propagates to the
caller without mutating the instance, so the state is kept. -/
def stepA (beh : Nat → Option Nat → Bool) (s : AttachState) : AOp → AttachState
  | .attachOp el => attach beh el s
  | .onAttachOp hid key once => onAttach hid key once s
  | .detachAllOp => detachAll s
  | .detachKeyOp key => (removeHandler key s).1
  | .detachOptsOp o =>
      match detachWithOptions o s with
      | .ok r => r.1
      | .error _ => s

/-- `createAttach(initialHandler?, once)`: the listener map starts as a
single `"default"` entry when an initial handler is supplied, else as
`undefined`. -/
def initAttach : Option (Nat × Bool) → AttachState
  | some (hid, once) => ⟨none, some [("default", ⟨hid, once, none⟩)], 0, [], []⟩
  | none => ⟨none, none, 0, [], []⟩

/-- Run a sequence of operations from a freshly created instance. -/
def runA (beh : Nat → Option Nat → Bool) (cfg : Option (Nat × Bool))
    (ops : List AOp) : AttachState :=
  ops.foldl (stepA beh) (initAttach cfg)

end CreateAttach

namespace BoolLazyFalse

/-- `BoolLazyFalseState` from `createBoolLazyFalse`. -/
inductive BState
  | FALSE
  | BECOMING_FALSE
  | TRUE
deriving DecidableEq, Repr

/-- One `createBoolLazyFalse` instance together with its timer world:
`timers` lists every `setTimeout` handle ever created with its
still-scheduled flag, `timeoutVar` is the `timeout` variable of the
source (which is never reset to `undefined`), `onChange` is the stored
callback (identified by a `Nat` label), and `fired` records every
callback invocation in order. -/
structure TriW where
  state : BState
  timers : List (Nat × Bool)
  timeoutVar : Option Nat
  onChange : Option Nat
  fired : List Nat
  nextT : Nat
deriving DecidableEq, Repr

/-- `clearTimeouts`: `clearTimeout` the handle in `timeout` (a no-op on
an already fired or cleared handle) and drop the stored callback.  The
`timeout` variable itself is left as is, exactly as in the source. -/
def clearTimeouts (w : TriW) : TriW :=
  let timers :=
    match w.timeoutVar with
    | some h => w.timers.map (fun p => if p.1 == h then (p.1, false) else p)
    | none => w.timers
  { w with timers := timers, onChange := none }

/-- `set(value, cb)`: no-op unless it is a `→ TRUE` or `TRUE →` request;
otherwise cancel the outstanding timer, store the new callback, and
either move to `TRUE` immediately (the state effect then fires the
callback, since the new state is not `BECOMING_FALSE`) or move to
`BECOMING_FALSE` and schedule the delayed transition. -/
def set (v : Bool) (cb : Option Nat) (w : TriW) : TriW :=
  let boolTrue := v && !(w.state == .TRUE)
  let boolFalse := !v && (w.state == .TRUE)
  if !boolTrue && !boolFalse then w
  else
    let w2 := clearTimeouts w
    let w3 := { w2 with onChange := cb }
    if boolTrue then
      let w4 := { w3 with state := .TRUE }
      { w4 with fired := w4.fired ++ w4.onChange.toList }
    else
      let h := w3.nextT
      { w3 with
        state := .BECOMING_FALSE,
        timers := w3.timers ++ [(h, true)],
        timeoutVar := some h,
        nextT := h + 1 }

/-- The runtime firing a scheduled timeout `h`: the handle becomes
non-scheduled and `setState(FALSE)` runs; when that actually changes the
state, the state effect fires the stored callback (the new state is not
`BECOMING_FALSE`).  A cleared or already-fired handle does nothing. -/
def timerFire (h : Nat) (w : TriW) : TriW :=
  if (h, true) ∈ w.timers then
    let timers := w.timers.map (fun p => if p.1 == h then (p.1, false) else p)
    if w.state == .FALSE then { w with timers := timers }
    else
      { w with
        timers := timers,
        state := .FALSE,
        fired := w.fired ++ w.onChange.toList }
  else w

/-- `lazyBool`: true in `TRUE` and `BECOMING_FALSE`. -/
def lazyBool (w : TriW) : Bool := !(w.state == .FALSE)

/-- `bool`: true only in `TRUE`. -/
def boolAcc (w : TriW) : Bool := w.state == .TRUE

/-- Externally visible events of one instance. -/
inductive TEv
  | setE (v : Bool) (cb : Option Nat)
  | timerE (h : Nat)
deriving DecidableEq, Repr

def stepT (w : TriW) : TEv → TriW
  | .setE v cb => set v cb w
  | .timerE h => timerFire h w

/-- `createBoolLazyFalse(initialValue, …)`. -/
def initT (b : Bool) : TriW :=
  ⟨if b then .TRUE else .FALSE, [], none, none, [], 0⟩

def runT (b : Bool) (evs : List TEv) : TriW :=
  evs.foldl stepT (initT b)

end BoolLazyFalse

namespace OverlaySystem

open BoolLazyFalse (BState)

/-- Which completion callback is stored in an entry's visibility
machine: the `openOverlay` callback or the `closeOverlay` callback. -/
inductive CbKind
  | opening
  | closing
deriving DecidableEq, Repr

/-- Observable side effects of the registry, in order: hook firings,
`elementRef.detach()` calls, and the two bookkeeping passes of
`updateOverlayVisibilityState`. -/
inductive TraceEv
  | beforeOpen (id : String)
  | beforeClose (id : String)
  | afterClose (id : String)
  | detachEl (id : String)
  | openBook (id : String)
  | closeBook (id : String)
deriving DecidableEq, Repr

/-- One registered overlay (`OverlayData`), with its visibility machine
carried at the bookkeeping level: state, whether its delayed exit timer
is pending, and which completion callback is stored.  The lifecycle
hooks are modelled by their cancel decision: `none` means the hook is
absent, `some c` means the hook runs and leaves `event.cancel = c`. -/
structure Entry where
  lockScroll : Option Bool
  onBeforeOpen : Option Bool
  onBeforeClose : Option Bool
  onAfterClose : Option Bool
  wasScrollLocked : Bool
  visState : BState
  visTimer : Bool
  visCb : Option CbKind
deriving DecidableEq, Repr

/-- A pending exit timer whose entry was replaced by re-registering the
same id: the source never disposes the old visibility machine, so its
timer still lands and its completion callback still runs against the
current store, using the values captured by the old closure. -/
structure Orphan where
  id : String
  wasScrollLocked : Bool
  onAfterClose : Option Bool
deriving DecidableEq, Repr

/-- The `overlayStore` plus orphaned timers and the observable trace. -/
structure RegWorld where
  overlays : List (String × Entry)
  openOverlays : List String
  topmost : Option String
  scrollLockCount : Int
  orphans : List Orphan
  trace : List TraceEv
deriving DecidableEq, Repr

/-- Caller-supplied configuration of `registerOverlay` (defaults are
applied at the use sites, as in the source: `lockScroll ?? true`,
`initiallyVisible ?? false`). -/
structure RegisterCfg where
  initiallyVisible : Option Bool := none
  lockScroll : Option Bool := none
  onBeforeOpen : Option Bool := none
  onBeforeClose : Option Bool := none
  onAfterClose : Option Bool := none
deriving DecidableEq, Repr

/-- `updateOverlayVisibilityState(id, shouldLockScroll, isOpening)`:
delete-then-append keeps the JS `Set` insertion order; the topmost id is
the appended id when opening, else the last remaining element; the
scroll-lock count is incremented on a fresh open and decremented on a
close of an id that was actually open. -/
def updateVis (id : String) (shouldLock : Bool) (isOpening : Bool) (w : RegWorld) : RegWorld :=
  let wasAlreadyOpen := w.openOverlays.contains id
  let w2 :=
    if isOpening then
      { w with openOverlays := (w.openOverlays.erase id) ++ [id], topmost := some id }
    else
      let l := w.openOverlays.erase id
      { w with openOverlays := l, topmost := l.getLast? }
  if shouldLock then
    if isOpening && !wasAlreadyOpen then
      { w2 with scrollLockCount := w2.scrollLockCount + 1 }
    else if !isOpening && wasAlreadyOpen then
      { w2 with scrollLockCount := w2.scrollLockCount - 1 }
    else w2
  else w2

/-- The body of the `closeOverlay` completion callback, fired once the
delayed exit lands: run `onAfterClose` first when present; a cancel
returns before the `elementRef.detach()` and before the bookkeeping. -/
def runClosingBody (id : String) (wasLocked : Bool) (after : Option Bool) (w : RegWorld) :
    RegWorld :=
  match after with
  | some true => { w with trace := w.trace ++ [.afterClose id] }
  | some false =>
      updateVis id wasLocked false
        { w with trace := w.trace ++ [.afterClose id, .detachEl id, .closeBook id] }
  | none =>
      updateVis id wasLocked false
        { w with trace := w.trace ++ [.detachEl id, .closeBook id] }

/-- `registerOverlay`: run `onBeforeOpen` (a cancel forces the initial
visibility to false), snapshot `wasScrollLocked`, store the entry with a
freshly seeded visibility machine (replacing any entry under the same
id; a replaced entry's pending exit timer is orphaned, not cancelled),
and fold an initially visible entry into the bookkeeping. -/
def registerOverlay (id : String) (cfg : RegisterCfg) (w : RegWorld) : RegWorld :=
  let sv0 := cfg.initiallyVisible.getD false
  let trace2 :=
    match cfg.onBeforeOpen with
    | some _ => w.trace ++ [TraceEv.beforeOpen id]
    | none => w.trace
  let sv := if cfg.onBeforeOpen == some true then false else sv0
  let wasLocked := sv && (cfg.lockScroll.getD true)
  let orphans2 :=
    match lookupKey id w.overlays with
    | some old =>
        if old.visTimer then w.orphans ++ [⟨id, old.wasScrollLocked, old.onAfterClose⟩]
        else w.orphans
    | none => w.orphans
  let entry : Entry :=
    { lockScroll := cfg.lockScroll,
      onBeforeOpen := cfg.onBeforeOpen,
      onBeforeClose := cfg.onBeforeClose,
      onAfterClose := cfg.onAfterClose,
      wasScrollLocked := wasLocked,
      visState := if sv then .TRUE else .FALSE,
      visTimer := false,
      visCb := none }
  let w2 :=
    { w with
      overlays := setKey id entry w.overlays,
      orphans := orphans2,
      trace := trace2 }
  if sv then updateVis id wasLocked true w2 else w2

/-- `unregisterOverlay`: no-op on an unknown id; otherwise dispose the
visibility machine (cancelling its timer and pending callback), detach
the element, remove the entry, and reconcile the bookkeeping with the
entry's scroll-lock snapshot. -/
def unregisterOverlay (id : String) (w : RegWorld) : RegWorld :=
  match lookupKey id w.overlays with
  | none => w
  | some e =>
      let w2 :=
        { w with
          overlays := eraseKey id w.overlays,
          trace := w.trace ++ [TraceEv.detachEl id] }
      updateVis id e.wasScrollLocked false w2

/-- `openOverlay`: no-op on an unknown id; `onBeforeOpen` may cancel;
then `visibilityState.set(true, cb)` — which itself is a no-op when the
state is already `TRUE` (so the completion callback never runs in that
case); otherwise the timer is cancelled, the state becomes `TRUE`, and
the completion callback runs: it refreshes `wasScrollLocked` from
`lockScroll ?? true` and performs the opening bookkeeping. -/
def openOverlay (id : String) (w : RegWorld) : RegWorld :=
  match lookupKey id w.overlays with
  | none => w
  | some e =>
      let trace2 :=
        match e.onBeforeOpen with
        | some _ => w.trace ++ [TraceEv.beforeOpen id]
        | none => w.trace
      if e.onBeforeOpen == some true then { w with trace := trace2 }
      else
        if e.visState == .TRUE then { w with trace := trace2 }
        else
          let wasLocked := e.lockScroll.getD true
          let e2 := { e with
            visState := BState.TRUE, visTimer := false, visCb := some CbKind.opening,
            wasScrollLocked := wasLocked }
          let w2 :=
            { w with
              overlays := setKey id e2 w.overlays,
              trace := trace2 ++ [TraceEv.openBook id] }
          updateVis id wasLocked true w2

/-- `closeOverlay`: no-op on an unknown id; `onBeforeClose` may cancel;
then `visibilityState.set(false, cb)` — a no-op unless the state is
`TRUE`; otherwise the state becomes `BECOMING_FALSE` with a pending
timer holding the closing callback. -/
def closeOverlay (id : String) (w : RegWorld) : RegWorld :=
  match lookupKey id w.overlays with
  | none => w
  | some e =>
      let trace2 :=
        match e.onBeforeClose with
        | some _ => w.trace ++ [TraceEv.beforeClose id]
        | none => w.trace
      if e.onBeforeClose == some true then { w with trace := trace2 }
      else
        if !(e.visState == .TRUE) then { w with trace := trace2 }
        else
          let e2 := { e with
            visState := BState.BECOMING_FALSE, visTimer := true,
            visCb := some CbKind.closing }
          { w with overlays := setKey id e2 w.overlays, trace := trace2 }

/-- The delayed exit timer of the current entry for `id` landing:
the state settles to `FALSE` and the stored closing callback runs. -/
def timerEvent (id : String) (w : RegWorld) : RegWorld :=
  match lookupKey id w.overlays with
  | none => w
  | some e =>
      if !e.visTimer then w
      else
        let e2 := { e with visState := BState.FALSE, visTimer := false }
        let w2 := { w with overlays := setKey id e2 w.overlays }
        match e.visCb with
        | some .closing => runClosingBody id e.wasScrollLocked e.onAfterClose w2
        | _ => w2

/-- An orphaned timer (from a replaced registration) landing. -/
def orphanEvent (i : Nat) (w : RegWorld) : RegWorld :=
  match w.orphans.get? i with
  | none => w
  | some o =>
      let w2 := { w with orphans := w.orphans.eraseIdx i }
      runClosingBody o.id o.wasScrollLocked o.onAfterClose w2

/-- The scroll-lock `createEffect`: a negative count is clamped to zero
before anything else can read it. -/
def clampEffect (w : RegWorld) : RegWorld :=
  if w.scrollLockCount < 0 then { w with scrollLockCount := 0 } else w

/-- Registry events: the four public operations plus timer landings. -/
inductive REvent
  | register (id : String) (cfg : RegisterCfg)
  | unregister (id : String)
  | openO (id : String)
  | closeO (id : String)
  | timer (id : String)
  | orphanT (i : Nat)
deriving DecidableEq, Repr

def stepR (w : RegWorld) (e : REvent) : RegWorld :=
  clampEffect <|
    match e with
    | .register id cfg => registerOverlay id cfg w
    | .unregister id => unregisterOverlay id w
    | .openO id => openOverlay id w
    | .closeO id => closeOverlay id w
    | .timer id => timerEvent id w
    | .orphanT i => orphanEvent i w

def initR : RegWorld := ⟨[], [], none, 0, [], []⟩

def runR (evs : List REvent) : RegWorld :=
  evs.foldl stepR initR

/-- `isOpen(id)`. -/
def isOpen (id : String) (w : RegWorld) : Bool := w.openOverlays.contains id

/-- `isTopmost(id)`. -/
def isTopmost (id : String) (w : RegWorld) : Bool := w.topmost == some id

end OverlaySystem

namespace CreateAttach

/-- The disposers currently stored in the listener map. -/
def stored (s : AttachState) : List Nat :=
  match s.listeners with
  | some l => cleanupsOf l
  | none => []

/-- The at-most-once bookkeeping invariant for one `createAttach`
instance: every recorded disposer invocation is distinct, ids are below
the allocator, stored cleanups are distinct, not yet invoked, below the
allocator, and listener keys are distinct. -/
structure Good (s : AttachState) : Prop where
  invNodup : s.invoked.Nodup
  invLt : ∀ c ∈ s.invoked, c < s.nextDisposer
  stNodup : (stored s).Nodup
  stFresh : ∀ c ∈ stored s, c ∉ s.invoked
  stLt : ∀ c ∈ stored s, c < s.nextDisposer
  keysND : ∀ l, s.listeners = some l → (l.map Prod.fst).Nodup

/-- The `detach` option combination that retains the `"default"` listener
as a copy after running its cleanup (`clearEvents` without
`clearDefaultEvent`) is the one excluded by the amended claim C4. -/
def legalA : AOp → Bool
  | .detachOptsOp o => !(o.key == none && o.clearEvents && !o.clearDefaultEvent)
  | _ => true

/-- A handler behaviour that returns a disposer on every invocation. -/
def alwaysDisposer : Nat → Option Nat → Bool := fun _ _ => true

/-- What `attach(undefined)` does on a bound instance with listener map
`l`: clears the element, runs every captured cleanup first (in
registration order), invokes every handler with `undefined`, and removes
every `once` listener. -/
def UnmountSpec (beh : Nat → Option Nat → Bool) (s : AttachState)
    (l : List (String × EventData)) : Prop :=
  (attach beh none s).element = none ∧
  (attach beh none s).calls = s.calls ++ l.map (fun p => (p.2.hid, (none : Option Nat))) ∧
  (∃ t, (attach beh none s).invoked = s.invoked ++ cleanupsOf l ++ t) ∧
  (∃ l2, (attach beh none s).listeners = some l2 ∧
    ∀ k d2, (k, d2) ∈ l → d2.once = true → hasKey k l2 = false)

end CreateAttach

namespace BoolLazyFalse

/-- The timer bookkeeping invariant of one `createBoolLazyFalse`
instance: timer handles are distinct and below the allocator, and any
still-scheduled timer is the one held by the `timeout` variable, which
can only happen while the state is `BECOMING_FALSE`. -/
def TInv (w : TriW) : Prop :=
  (w.timers.map Prod.fst).Nodup ∧
  (∀ p ∈ w.timers, p.1 < w.nextT) ∧
  (∀ p ∈ w.timers, p.2 = true → w.timeoutVar = some p.1 ∧ w.state = BState.BECOMING_FALSE)

end BoolLazyFalse

namespace OverlaySystem

/-- What the `closeOverlay` completion callback does once the delayed
exit of `id` (with current entry `e`) lands: the state transition to
`FALSE` is committed either way; `onAfterClose` runs before any detach
or bookkeeping; a cancelling hook suppresses the detach and the whole
bookkeeping pass (open set, topmost, scroll-lock count all untouched);
otherwise the detach and the closing bookkeeping follow the hook. -/
def AfterCloseSpec (id : String) (e : Entry) (w : RegWorld) : Prop :=
  ((lookupKey id (timerEvent id w).overlays).map Entry.visState = some BoolLazyFalse.BState.FALSE) ∧
  (∀ c, e.onAfterClose = some c →
    ∃ tail, (timerEvent id w).trace = w.trace ++ TraceEv.afterClose id :: tail) ∧
  (e.onAfterClose = some true →
    (timerEvent id w).openOverlays = w.openOverlays ∧
    (timerEvent id w).topmost = w.topmost ∧
    (timerEvent id w).scrollLockCount = w.scrollLockCount ∧
    (timerEvent id w).trace = w.trace ++ [TraceEv.afterClose id]) ∧
  (e.onAfterClose ≠ some true →
    (timerEvent id w).openOverlays = w.openOverlays.erase id ∧
    (timerEvent id w).topmost = (w.openOverlays.erase id).getLast? ∧
    (timerEvent id w).scrollLockCount =
      (if e.wasScrollLocked && w.openOverlays.contains id then w.scrollLockCount - 1
       else w.scrollLockCount) ∧
    ∃ pre, (timerEvent id w).trace = pre ++ [TraceEv.detachEl id, TraceEv.closeBook id] ∧
      (e.onAfterClose = none → pre = w.trace))

end OverlaySystem

namespace CreateAttach

/-- A bound instance with a `once` listener and a plain listener,
reached by an ordinary run: attach element 3, then register handlers
under keys "a" (once) and "b". -/
def boundState : AttachState :=
  runA alwaysDisposer none
    [AOp.attachOp (some 3), AOp.onAttachOp 0 "a" true, AOp.onAttachOp 1 "b" false]

/-- The listener map of `boundState`. -/
def boundListeners : List (String × EventData) :=
  [("a", ⟨0, true, none⟩), ("b", ⟨1, false, none⟩)]

end CreateAttach

namespace OverlaySystem

/-- A registry with one registered, opened overlay (used as a
realistic world in which to exercise unknown-id operations). -/
def sampleWorld : RegWorld := runR [REvent.register "A" {}, REvent.openO "A"]

/-- The registry just before the delayed exit of overlay "m" lands:
"m" is registered with scroll lock and a cancelling onAfterClose hook,
opened, and closed (exit transition in flight). -/
def closingWorld : RegWorld :=
  runR [REvent.register "m" { lockScroll := some true, onAfterClose := some true },
    REvent.openO "m", REvent.closeO "m"]

/-- The entry of "m" in `closingWorld`. -/
def closingEntry : Entry :=
  { lockScroll := some true, onBeforeOpen := none, onBeforeClose := none,
    onAfterClose := some true, wasScrollLocked := true,
    visState := BoolLazyFalse.BState.BECOMING_FALSE, visTimer := true,
    visCb := some CbKind.closing }

end OverlaySystem

namespace AssocList

theorem lookupKey_setKey (k : String) (v : α) :
    ∀ l : List (String × α), lookupKey k (setKey k v l) = some v
  | [] => by simp [setKey, lookupKey]
  | (k2, v2) :: rest => by
      by_cases h : k2 = k
      · simp [setKey, h, lookupKey]
      · simp [setKey, h, lookupKey, lookupKey_setKey k v rest]

theorem eraseKey_sublist (k : String) :
    ∀ l : List (String × α), (eraseKey k l).Sublist l
  | [] => List.Sublist.refl _
  | (k2, v2) :: rest => by
      by_cases h : k2 = k
      · rw [eraseKey, if_pos h]
        exact List.sublist_cons_self (k2, v2) rest
      · rw [eraseKey, if_neg h]
        exact (eraseKey_sublist k rest).cons₂ (k2, v2)

theorem hasKey_iff_mem_keys (k : String) :
    ∀ l : List (String × α), hasKey k l = true ↔ k ∈ l.map Prod.fst
  | [] => by simp [hasKey, lookupKey]
  | (k2, v2) :: rest => by
      by_cases h : k2 = k
      · simp [hasKey, lookupKey, h]
      · simpa [hasKey, lookupKey, h, Ne.symm h] using hasKey_iff_mem_keys k rest

theorem keys_setKey (k : String) (v : α) :
    ∀ l : List (String × α),
      (setKey k v l).map Prod.fst =
        if hasKey k l then l.map Prod.fst else l.map Prod.fst ++ [k]
  | [] => by simp [setKey, hasKey, lookupKey]
  | (k2, v2) :: rest => by
      by_cases h : k2 = k
      · simp [setKey, hasKey, lookupKey, h]
      · simp only [setKey, if_neg h, List.map_cons, keys_setKey k v rest,
          hasKey, lookupKey, if_neg h]
        by_cases h2 : (lookupKey k rest).isSome <;> simp [h2]

theorem keys_setKey_nodup (k : String) (v : α) (l : List (String × α))
    (h : (l.map Prod.fst).Nodup) : ((setKey k v l).map Prod.fst).Nodup := by
  rw [keys_setKey]
  by_cases hk : hasKey k l
  · simp [hk, h]
  · have hmem : k ∉ l.map Prod.fst := by
      intro hc
      exact hk ((hasKey_iff_mem_keys k l).mpr hc)
    simp only [hk, if_false, Bool.false_eq_true]
    exact List.Nodup.append h (List.nodup_singleton k)
      (by simpa [List.disjoint_singleton] using hmem)

end AssocList

namespace CreateAttach

theorem cleanupsOf_nil : cleanupsOf [] = [] := rfl

theorem cleanupsOf_cons (k : String) (d : EventData) (rest : List (String × EventData)) :
    cleanupsOf ((k, d) :: rest) = d.cleanupFn.toList ++ cleanupsOf rest := by
  cases hc : d.cleanupFn <;> simp [cleanupsOf, hc]

theorem lookup_cleanup_mem (k : String) :
    ∀ (l : List (String × EventData)) (d : EventData) (c0 : Nat),
      lookupKey k l = some d → d.cleanupFn = some c0 → c0 ∈ cleanupsOf l
  | [], d, c0 => by simp [lookupKey]
  | (k2, v2) :: rest, d, c0 => by
      intro hl hc
      rw [cleanupsOf_cons]
      by_cases h : k2 = k
      · rw [lookupKey, if_pos h] at hl
        injection hl with hv
        subst hv
        simp [hc]
      · rw [lookupKey, if_neg h] at hl
        exact List.mem_append_right _ (lookup_cleanup_mem k rest d c0 hl hc)

theorem cleanups_setKey_none (k : String) (d0 : EventData) (h0 : d0.cleanupFn = none) :
    ∀ l : List (String × EventData),
      (cleanupsOf (setKey k d0 l)).Sublist (cleanupsOf l)
  | [] => by simp [setKey, cleanupsOf, h0]
  | (k2, v2) :: rest => by
      by_cases h : k2 = k
      · rw [setKey, if_pos h, cleanupsOf_cons, cleanupsOf_cons, h0]
        simp only [Option.toList_none, List.nil_append]
        exact List.sublist_append_right _ _
      · rw [setKey, if_neg h, cleanupsOf_cons, cleanupsOf_cons]
        exact (cleanups_setKey_none k d0 h0 rest).append_left _

theorem cleanup_not_mem_setKey_none (k : String) (d0 : EventData) (h0 : d0.cleanupFn = none) :
    ∀ (l : List (String × EventData)) (d : EventData) (c0 : Nat),
      (cleanupsOf l).Nodup → lookupKey k l = some d → d.cleanupFn = some c0 →
      c0 ∉ cleanupsOf (setKey k d0 l)
  | [], d, c0 => by simp [lookupKey]
  | (k2, v2) :: rest, d, c0 => by
      intro hnd hl hc
      by_cases h : k2 = k
      · rw [lookupKey, if_pos h] at hl
        injection hl with hv
        subst hv
        rw [setKey, if_pos h, cleanupsOf_cons, h0]
        simp only [Option.toList_none, List.nil_append]
        rw [cleanupsOf_cons, hc] at hnd
        simp only [Option.toList_some, List.singleton_append, List.nodup_cons] at hnd
        exact hnd.1
      · rw [lookupKey, if_neg h] at hl
        rw [setKey, if_neg h, cleanupsOf_cons]
        rw [cleanupsOf_cons] at hnd
        intro hmem
        rcases List.mem_append.mp hmem with hm1 | hm2
        · cases hv2 : v2.cleanupFn with
          | none => simp [hv2] at hm1
          | some c1 =>
              rw [hv2] at hm1
              simp only [Option.toList_some, List.mem_singleton] at hm1
              subst hm1
              have hmr : c0 ∈ cleanupsOf rest := lookup_cleanup_mem k rest d c0 hl hc
              rw [hv2] at hnd
              simp only [Option.toList_some, List.singleton_append, List.nodup_cons] at hnd
              exact hnd.1 hmr
        · exact cleanup_not_mem_setKey_none k d0 h0 rest d c0 (hnd.of_append_right) hl hc hm2

theorem cleanup_not_mem_eraseKey (k : String) :
    ∀ (l : List (String × EventData)) (d : EventData) (c0 : Nat),
      (cleanupsOf l).Nodup → lookupKey k l = some d → d.cleanupFn = some c0 →
      c0 ∉ cleanupsOf (eraseKey k l)
  | [], d, c0 => by simp [lookupKey]
  | (k2, v2) :: rest, d, c0 => by
      intro hnd hl hc
      by_cases h : k2 = k
      · rw [lookupKey, if_pos h] at hl
        injection hl with hv
        subst hv
        rw [eraseKey, if_pos h]
        rw [cleanupsOf_cons, hc] at hnd
        simp only [Option.toList_some, List.singleton_append, List.nodup_cons] at hnd
        exact hnd.1
      · rw [lookupKey, if_neg h] at hl
        rw [eraseKey, if_neg h, cleanupsOf_cons]
        rw [cleanupsOf_cons] at hnd
        intro hmem
        rcases List.mem_append.mp hmem with hm1 | hm2
        · cases hv2 : v2.cleanupFn with
          | none => simp [hv2] at hm1
          | some c1 =>
              rw [hv2] at hm1
              simp only [Option.toList_some, List.mem_singleton] at hm1
              subst hm1
              have hmr : c0 ∈ cleanupsOf rest := lookup_cleanup_mem k rest d c0 hl hc
              rw [hv2] at hnd
              simp only [Option.toList_some, List.singleton_append, List.nodup_cons] at hnd
              exact hnd.1 hmr
        · exact cleanup_not_mem_eraseKey k rest d c0 (hnd.of_append_right) hl hc hm2

theorem cleanups_eraseKey_sublist (k : String) (l : List (String × EventData)) :
    (cleanupsOf (eraseKey k l)).Sublist (cleanupsOf l) := by
  have h := eraseKey_sublist k l
  simpa [cleanupsOf] using h.filterMap (fun p => p.2.cleanupFn)

theorem filter_key_nil (k : String) :
    ∀ l : List (String × EventData), k ∉ l.map Prod.fst →
      l.filter (fun p => p.1 == k) = []
  | [] => by simp
  | (k2, v2) :: rest => by
      intro hk
      simp only [List.map_cons, List.mem_cons] at hk
      push_neg at hk
      have h2 : ((k2, v2).1 == k) = false := by
        simp [Ne.symm hk.1]
      simp only [List.filter_cons, h2, Bool.false_eq_true, if_false]
      exact filter_key_nil k rest hk.2

theorem cleanups_filter_key (k : String) :
    ∀ l : List (String × EventData), (l.map Prod.fst).Nodup →
      cleanupsOf (l.filter (fun p => p.1 == k)) =
        ((lookupKey k l).bind (fun d => d.cleanupFn)).toList
  | [] => by simp [lookupKey, cleanupsOf]
  | (k2, v2) :: rest => by
      intro hnd
      simp only [List.map_cons, List.nodup_cons] at hnd
      by_cases h : k2 = k
      · have h2 : ((k2, v2).1 == k) = true := by simp [h]
        simp only [List.filter_cons, h2, if_true]
        rw [lookupKey, if_pos h]
        have hrest : rest.filter (fun p => p.1 == k) = [] := by
          apply filter_key_nil
          rw [← h]
          exact hnd.1
        rw [cleanupsOf_cons, hrest, cleanupsOf_nil, List.append_nil]
        rfl
      · have h2 : ((k2, v2).1 == k) = false := by simp [h]
        simp only [List.filter_cons, h2, Bool.false_eq_true, if_false]
        rw [lookupKey, if_neg h]
        exact cleanups_filter_key k rest hnd.2

end CreateAttach

namespace CreateAttach

theorem fireAll_calls (beh : Nat → Option Nat → Bool) (el : Option Nat) :
    ∀ (l : List (String × EventData)) (n : Nat) (inv : List Nat)
      (cs : List (Nat × Option Nat)),
      (fireAll beh el l n inv cs).calls = cs ++ l.map (fun p => (p.2.hid, el))
  | [] => by intro n inv cs; simp [fireAll]
  | (k, d) :: rest => by
      intro n inv cs
      rw [fireAll]
      by_cases ho : d.once
      · simp only [ho, if_true]
        rw [fireAll_calls beh el rest]
        simp
      · simp only [ho, Bool.false_eq_true, if_false]
        show (fireAll beh el rest _ inv _).calls = _
        rw [fireAll_calls beh el rest]
        simp

theorem fireAll_invoked_mono (beh : Nat → Option Nat → Bool) (el : Option Nat) :
    ∀ (l : List (String × EventData)) (n : Nat) (inv : List Nat)
      (cs : List (Nat × Option Nat)),
      ∃ t, (fireAll beh el l n inv cs).invoked = inv ++ t := by
  intro l
  induction l with
  | nil => intro n inv cs; exact ⟨[], by simp [fireAll]⟩
  | cons p rest ih =>
      obtain ⟨k, d⟩ := p
      intro n inv cs
      rw [fireAll]
      by_cases ho : d.once
      · simp only [ho, if_true]
        obtain ⟨t2, ht2⟩ := ih _ _ _
        rw [ht2, List.append_assoc]
        exact ⟨_, rfl⟩
      · simp only [ho, Bool.false_eq_true, if_false]
        show ∃ t, (fireAll beh el rest _ inv _).invoked = inv ++ t
        exact ih _ _ _

theorem fireAll_keys (beh : Nat → Option Nat → Bool) (el : Option Nat) :
    ∀ (l : List (String × EventData)) (n : Nat) (inv : List Nat)
      (cs : List (Nat × Option Nat)),
      (fireAll beh el l n inv cs).kept.map Prod.fst =
        (l.filter (fun p => !p.2.once)).map Prod.fst
  | [] => by intro n inv cs; simp [fireAll]
  | (k, d) :: rest => by
      intro n inv cs
      rw [fireAll]
      by_cases ho : d.once
      · simp only [ho, if_true]
        rw [fireAll_keys beh el rest]
        simp [List.filter_cons, ho]
      · simp only [ho, Bool.false_eq_true, if_false]
        show ((fireAll beh el rest _ inv _).kept.map Prod.fst).cons k = _
        rw [fireAll_keys beh el rest]
        simp [List.filter_cons, ho]

end CreateAttach

namespace CreateAttach

theorem fireAll_true_spec (beh : Nat → Option Nat → Bool) (el : Option Nat)
    (hbeh : ∀ h2 x, beh h2 x = true) :
    ∀ (l : List (String × EventData)) (n : Nat) (inv : List Nat)
      (cs : List (Nat × Option Nat)),
      n ≤ (fireAll beh el l n inv cs).next ∧
      ∃ fr, (fireAll beh el l n inv cs).invoked = inv ++ fr ∧
        fr.Nodup ∧
        (∀ c ∈ fr, n ≤ c ∧ c < (fireAll beh el l n inv cs).next) ∧
        (cleanupsOf (fireAll beh el l n inv cs).kept).Nodup ∧
        (∀ c ∈ cleanupsOf (fireAll beh el l n inv cs).kept,
          n ≤ c ∧ c < (fireAll beh el l n inv cs).next) ∧
        (∀ c ∈ fr, c ∉ cleanupsOf (fireAll beh el l n inv cs).kept) := by
  intro l
  induction l with
  | nil =>
      intro n inv cs
      refine ⟨le_refl n, [], ?_⟩
      simp [fireAll, cleanupsOf]
  | cons p rest ih =>
      obtain ⟨k, d⟩ := p
      obtain ⟨dh, dO, dC⟩ := d
      intro n inv cs
      rw [fireAll]
      have hb : beh dh el = true := hbeh dh el
      cases dO with
      | true =>
          simp only [hb, if_true, Option.toList_some]
          obtain ⟨hle, fr2, hinv, hnd2, hb2, hknd2, hkb2, hdj2⟩ :=
            ih (n + 1) (inv ++ [n]) (cs ++ [(dh, el)])
          refine ⟨by omega, n :: fr2, ?_, ?_, ?_, hknd2, ?_, ?_⟩
          · rw [hinv, List.append_assoc]
            rfl
          · rw [List.nodup_cons]
            refine ⟨fun hc => ?_, hnd2⟩
            have := (hb2 n hc).1
            omega
          · intro c hc
            rcases List.mem_cons.mp hc with h1 | h1
            · subst h1
              exact ⟨le_refl c, by omega⟩
            · have := hb2 c h1
              exact ⟨by omega, this.2⟩
          · intro c hc
            have := hkb2 c hc
            exact ⟨by omega, this.2⟩
          · intro c hc
            rcases List.mem_cons.mp hc with h1 | h1
            · subst h1
              intro hmem
              have := (hkb2 c hmem).1
              omega
            · exact hdj2 c h1
      | false =>
          simp only [hb, if_true, Bool.false_eq_true, if_false]
          obtain ⟨hle, fr2, hinv, hnd2, hb2, hknd2, hkb2, hdj2⟩ :=
            ih (n + 1) inv (cs ++ [(dh, el)])
          have hkc : cleanupsOf ((k, (⟨dh, false, some n⟩ : EventData)) ::
              (fireAll beh el rest (n + 1) inv (cs ++ [(dh, el)])).kept) =
              n :: cleanupsOf (fireAll beh el rest (n + 1) inv (cs ++ [(dh, el)])).kept := by
            rw [cleanupsOf_cons]
            rfl
          refine ⟨by omega, fr2, hinv, hnd2, ?_, ?_, ?_, ?_⟩
          · intro c hc
            have := hb2 c hc
            exact ⟨by omega, this.2⟩
          · rw [hkc, List.nodup_cons]
            refine ⟨fun hc => ?_, hknd2⟩
            have := (hkb2 n hc).1
            omega
          · intro c hc
            rw [hkc] at hc
            rcases List.mem_cons.mp hc with h1 | h1
            · subst h1
              exact ⟨le_refl c, by omega⟩
            · have := hkb2 c h1
              exact ⟨by omega, this.2⟩
          · intro c hc
            rw [hkc]
            intro hmem
            rcases List.mem_cons.mp hmem with h1 | h1
            · subst h1
              have := (hb2 c hc).1
              omega
            · exact hdj2 c hc h1

end CreateAttach

namespace CreateAttach

theorem good_element (s : AttachState) (x : Option Nat) (hG : Good s) :
    Good { s with element := x } :=
  ⟨hG.invNodup, hG.invLt, hG.stNodup, hG.stFresh, hG.stLt, hG.keysND⟩

theorem good_dropAll (s : AttachState) (l : List (String × EventData))
    (hl : s.listeners = some l) (hG : Good s) :
    Good { s with invoked := s.invoked ++ cleanupsOf l, listeners := none } := by
  have hst : stored s = cleanupsOf l := by simp [stored, hl]
  refine ⟨?_, ?_, ?_, ?_, ?_, ?_⟩
  · exact hG.invNodup.append (hst ▸ hG.stNodup)
      (fun a ha hb => hG.stFresh a (by rw [hst]; exact hb) ha)
  · intro c hc
    rcases List.mem_append.mp hc with h1 | h1
    · exact hG.invLt c h1
    · exact hG.stLt c (by rw [hst]; exact h1)
  · simp [stored]
  · simp [stored]
  · simp [stored]
  · intro l2 h2
    simp at h2

theorem good_erase (s : AttachState) (l : List (String × EventData)) (key : String)
    (hl : s.listeners = some l) (hG : Good s) :
    Good { s with
      invoked := s.invoked ++ ((lookupKey key l).bind (fun d => d.cleanupFn)).toList,
      listeners := some (eraseKey key l) } := by
  have hst : stored s = cleanupsOf l := by simp [stored, hl]
  have hstN : (cleanupsOf l).Nodup := hst ▸ hG.stNodup
  have hstF : ∀ c ∈ cleanupsOf l, c ∉ s.invoked :=
    fun c hc => hG.stFresh c (by rw [hst]; exact hc)
  have hstL : ∀ c ∈ cleanupsOf l, c < s.nextDisposer :=
    fun c hc => hG.stLt c (by rw [hst]; exact hc)
  have hsub := cleanups_eraseKey_sublist key l
  have hkeys : ((eraseKey key l).map Prod.fst).Nodup :=
    ((eraseKey_sublist key l).map Prod.fst).nodup (hG.keysND l hl)
  rcases hoc : (lookupKey key l).bind (fun d => d.cleanupFn) with _ | c0
  · refine ⟨?_, ?_, ?_, ?_, ?_, ?_⟩
    · simpa using hG.invNodup
    · intro c hc
      simp only [Option.toList_none, List.append_nil] at hc
      exact hG.invLt c hc
    · simpa [stored] using hsub.nodup hstN
    · intro c hc
      simp only [stored] at hc
      simp only [Option.toList_none, List.append_nil]
      exact hstF c (hsub.subset hc)
    · intro c hc
      simp only [stored] at hc
      exact hstL c (hsub.subset hc)
    · intro l2 h2
      simp only [Option.some.injEq] at h2
      rw [← h2]
      exact hkeys
  · obtain ⟨d, hd, hdc⟩ := Option.bind_eq_some.mp hoc
    have hc0 : c0 ∈ cleanupsOf l := lookup_cleanup_mem key l d c0 hd hdc
    have hc0inv : c0 ∉ s.invoked := hstF c0 hc0
    have hc0lt : c0 < s.nextDisposer := hstL c0 hc0
    have hc0er : c0 ∉ cleanupsOf (eraseKey key l) :=
      cleanup_not_mem_eraseKey key l d c0 hstN hd hdc
    refine ⟨?_, ?_, ?_, ?_, ?_, ?_⟩
    · refine hG.invNodup.append (by simp) ?_
      intro a ha hb
      simp only [Option.toList_some, List.mem_singleton] at hb
      subst hb
      exact hc0inv ha
    · intro c hc
      rcases List.mem_append.mp hc with h1 | h1
      · exact hG.invLt c h1
      · simp only [Option.toList_some, List.mem_singleton] at h1
        subst h1
        exact hc0lt
    · simpa [stored] using hsub.nodup hstN
    · intro c hc
      simp only [stored] at hc
      intro hmem
      rcases List.mem_append.mp hmem with h1 | h1
      · exact hstF c (hsub.subset hc) h1
      · simp only [Option.toList_some, List.mem_singleton] at h1
        subst h1
        exact hc0er hc
    · intro c hc
      simp only [stored] at hc
      exact hstL c (hsub.subset hc)
    · intro l2 h2
      simp only [Option.some.injEq] at h2
      rw [← h2]
      exact hkeys

end CreateAttach

namespace CreateAttach

theorem good_fire (beh : Nat → Option Nat → Bool) (el : Option Nat)
    (hbeh : ∀ h2 x, beh h2 x = true) (s : AttachState)
    (l : List (String × EventData)) (hl : s.listeners = some l)
    (inv1 : List Nat) (hN : inv1.Nodup) (hLt : ∀ c ∈ inv1, c < s.nextDisposer)
    (hG : Good s) :
    Good { element := el,
           listeners := some (fireAll beh el l s.nextDisposer inv1 s.calls).kept,
           nextDisposer := (fireAll beh el l s.nextDisposer inv1 s.calls).next,
           invoked := (fireAll beh el l s.nextDisposer inv1 s.calls).invoked,
           calls := (fireAll beh el l s.nextDisposer inv1 s.calls).calls } := by
  obtain ⟨hle, fr, hinv, hfrN, hfrB, hkN, hkB, hdj⟩ :=
    fireAll_true_spec beh el hbeh l s.nextDisposer inv1 s.calls
  refine ⟨?_, ?_, ?_, ?_, ?_, ?_⟩
  · show ((fireAll beh el l s.nextDisposer inv1 s.calls).invoked).Nodup
    rw [hinv]
    refine hN.append hfrN ?_
    intro a ha hb
    have h1 := hLt a ha
    have h2 := (hfrB a hb).1
    omega
  · show ∀ c ∈ (fireAll beh el l s.nextDisposer inv1 s.calls).invoked,
      c < (fireAll beh el l s.nextDisposer inv1 s.calls).next
    rw [hinv]
    intro c hc
    rcases List.mem_append.mp hc with h1 | h1
    · have := hLt c h1
      omega
    · exact (hfrB c h1).2
  · simpa [stored] using hkN
  · intro c hc
    simp only [stored] at hc
    show c ∉ (fireAll beh el l s.nextDisposer inv1 s.calls).invoked
    rw [hinv]
    intro hmem
    rcases List.mem_append.mp hmem with h1 | h1
    · have h2 := hLt c h1
      have h3 := (hkB c hc).1
      omega
    · exact hdj c h1 hc
  · intro c hc
    simp only [stored] at hc
    exact (hkB c hc).2
  · intro l2 h2
    simp only [Option.some.injEq] at h2
    rw [← h2, fireAll_keys]
    exact (List.Sublist.map Prod.fst (List.filter_sublist l)).nodup (hG.keysND l hl)

theorem good_onAttach (hid : Nat) (key : String) (once : Bool) (s : AttachState)
    (hG : Good s) : Good (onAttach hid key once s) := by
  cases hl : s.listeners with
  | none =>
      simp only [onAttach, hl, Option.bind_none, Option.none_bind, Option.toList_none,
        List.append_nil]
      refine ⟨hG.invNodup, hG.invLt, ?_, ?_, ?_, ?_⟩
      · simp [stored, cleanupsOf]
      · simp [stored, cleanupsOf]
      · simp [stored, cleanupsOf]
      · intro l2 h2
        simp only [Option.some.injEq] at h2
        rw [← h2]
        simp
  | some l =>
      have hst : stored s = cleanupsOf l := by simp [stored, hl]
      have hstN : (cleanupsOf l).Nodup := hst ▸ hG.stNodup
      have hstF : ∀ c ∈ cleanupsOf l, c ∉ s.invoked :=
        fun c hc => hG.stFresh c (by rw [hst]; exact hc)
      have hstL : ∀ c ∈ cleanupsOf l, c < s.nextDisposer :=
        fun c hc => hG.stLt c (by rw [hst]; exact hc)
      have hsub := cleanups_setKey_none key (⟨hid, once, none⟩ : EventData) rfl l
      have hkeys := keys_setKey_nodup key (⟨hid, once, none⟩ : EventData) l (hG.keysND l hl)
      simp only [onAttach, hl, Option.some_bind]
      rcases hoc : (lookupKey key l).bind (fun d => d.cleanupFn) with _ | c0
      · refine ⟨?_, ?_, ?_, ?_, ?_, ?_⟩
        · simpa using hG.invNodup
        · intro c hc
          simp only [Option.toList_none, List.append_nil] at hc
          exact hG.invLt c hc
        · simpa [stored] using hsub.nodup hstN
        · intro c hc
          simp only [stored] at hc
          simp only [Option.toList_none, List.append_nil]
          exact hstF c (hsub.subset hc)
        · intro c hc
          simp only [stored] at hc
          exact hstL c (hsub.subset hc)
        · intro l2 h2
          simp only [Option.some.injEq] at h2
          rw [← h2]
          exact hkeys
      · obtain ⟨d, hd, hdc⟩ := Option.bind_eq_some.mp hoc
        have hc0 : c0 ∈ cleanupsOf l := lookup_cleanup_mem key l d c0 hd hdc
        have hc0inv : c0 ∉ s.invoked := hstF c0 hc0
        have hc0lt : c0 < s.nextDisposer := hstL c0 hc0
        have hc0st : c0 ∉ cleanupsOf (setKey key (⟨hid, once, none⟩ : EventData) l) :=
          cleanup_not_mem_setKey_none key (⟨hid, once, none⟩ : EventData) rfl l d c0 hstN hd hdc
        refine ⟨?_, ?_, ?_, ?_, ?_, ?_⟩
        · refine hG.invNodup.append (by simp) ?_
          intro a ha hb
          simp only [Option.toList_some, List.mem_singleton] at hb
          subst hb
          exact hc0inv ha
        · intro c hc
          rcases List.mem_append.mp hc with h1 | h1
          · exact hG.invLt c h1
          · simp only [Option.toList_some, List.mem_singleton] at h1
            subst h1
            exact hc0lt
        · simpa [stored] using hsub.nodup hstN
        · intro c hc
          simp only [stored] at hc
          intro hmem
          rcases List.mem_append.mp hmem with h1 | h1
          · exact hstF c (hsub.subset hc) h1
          · simp only [Option.toList_some, List.mem_singleton] at h1
            subst h1
            exact hc0st hc
        · intro c hc
          simp only [stored] at hc
          exact hstL c (hsub.subset hc)
        · intro l2 h2
          simp only [Option.some.injEq] at h2
          rw [← h2]
          exact hkeys

theorem good_attach (beh : Nat → Option Nat → Bool) (el : Option Nat)
    (hbeh : ∀ h2 x, beh h2 x = true) (s : AttachState) (hG : Good s) :
    Good (attach beh el s) := by
  by_cases heq : el = s.element
  · simpa [attach, heq] using hG
  · cases hl : s.listeners with
    | none =>
        cases hel : s.element with
        | none =>
            rw [hel] at heq
            simp only [attach, hl, hel, if_neg heq]
            exact ⟨hG.invNodup, hG.invLt, by simp [stored], by simp [stored],
              by simp [stored], by intro l2 h2; simp at h2⟩
        | some e0 =>
            rw [hel] at heq
            simp only [attach, hl, hel, if_neg heq]
            exact ⟨hG.invNodup, hG.invLt, by simp [stored], by simp [stored],
              by simp [stored], by intro l2 h2; simp at h2⟩
    | some l =>
        have hst : stored s = cleanupsOf l := by simp [stored, hl]
        cases hel : s.element with
        | none =>
            rw [hel] at heq
            simp only [attach, hl, hel, if_neg heq]
            exact good_fire beh el hbeh s l hl s.invoked hG.invNodup hG.invLt hG
        | some e0 =>
            rw [hel] at heq
            simp only [attach, hl, hel, if_neg heq]
            refine good_fire beh el hbeh s l hl (s.invoked ++ cleanupsOf l) ?_ ?_ hG
            · exact hG.invNodup.append (hst ▸ hG.stNodup)
                (fun a ha hb => hG.stFresh a (by rw [hst]; exact hb) ha)
            · intro c hc
              rcases List.mem_append.mp hc with h1 | h1
              · exact hG.invLt c h1
              · exact hG.stLt c (by rw [hst]; exact h1)

end CreateAttach

namespace CreateAttach

theorem good_mk_of (s : AttachState) (x : Option Nat)
    (ls : Option (List (String × EventData))) (h : s.listeners = ls) (hG : Good s) :
    Good { element := x, listeners := ls, nextDisposer := s.nextDisposer,
           invoked := s.invoked, calls := s.calls } := by
  subst h
  exact good_element s x hG

theorem good_removeHandler (key : String) (s : AttachState) (hG : Good s) :
    Good (removeHandler key s).1 := by
  cases hl : s.listeners with
  | none =>
      simp only [removeHandler, hl, Option.bind_none, Option.none_bind, Option.toList_none,
        List.append_nil]
      exact good_mk_of s s.element none hl hG
  | some l =>
      simp only [removeHandler, hl, Option.some_bind]
      exact good_erase s l key hl hG

theorem good_detachAll (s : AttachState) (hG : Good s) : Good (detachAll s) := by
  cases hl : s.listeners with
  | none =>
      simp only [detachAll, hl]
      exact good_mk_of s none none hl hG
  | some l =>
      simp only [detachAll, hl]
      exact good_element _ none (good_dropAll s l hl hG)

theorem good_step (beh : Nat → Option Nat → Bool) (hbeh : ∀ h2 x, beh h2 x = true)
    (op : AOp) (hleg : legalA op = true) (s : AttachState) (hG : Good s) :
    Good (stepA beh s op) := by
  cases op with
  | attachOp el => exact good_attach beh el hbeh s hG
  | onAttachOp hid key once => exact good_onAttach hid key once s hG
  | detachAllOp => exact good_detachAll s hG
  | detachKeyOp key => exact good_removeHandler key s hG
  | detachOptsOp o =>
      show Good (match detachWithOptions o s with | .ok r => r.1 | .error _ => s)
      cases hk : o.key with
      | some k =>
          simp only [detachWithOptions, hk]
          exact good_removeHandler k s hG
      | none =>
          by_cases hce : o.clearEvents
          · by_cases hcd : o.clearDefaultEvent
            · by_cases heo : o.eventsOnly
              all_goals cases hl : s.listeners with
              | none =>
                  simp [detachWithOptions, hk, hce, hcd, heo, hl]
                  first
                    | exact hG
                    | exact good_mk_of s s.element none hl hG
                    | exact good_mk_of s none none hl hG
              | some l =>
                  simp [detachWithOptions, hk, hce, hcd, heo, hl]
                  first
                    | exact good_dropAll s l hl hG
                    | exact good_element _ none (good_dropAll s l hl hG)
            · exfalso
              simp [legalA, hk, hce, hcd] at hleg
          · by_cases hcd : o.clearDefaultEvent
            · by_cases heo : o.eventsOnly
              all_goals cases hl : s.listeners with
              | none =>
                  simp [detachWithOptions, hk, hce, hcd, heo, hl]
                  first
                    | exact hG
                    | exact good_mk_of s s.element none hl hG
                    | exact good_mk_of s none none hl hG
              | some l =>
                  simp [detachWithOptions, hk, hce, hcd, heo, hl]
                  rw [cleanups_filter_key "default" l (hG.keysND l hl)]
                  first
                    | exact good_erase s l "default" hl hG
                    | exact good_element _ none (good_erase s l "default" hl hG)
            · by_cases heo : o.eventsOnly
              · simp [detachWithOptions, hk, hce, hcd, heo]
                exact hG
              · cases hl : s.listeners with
                | none =>
                    simp [detachWithOptions, hk, hce, hcd, heo, hl]
                    exact good_mk_of s none none hl hG
                | some l =>
                    simp [detachWithOptions, hk, hce, hcd, heo, hl, cleanupsOf]
                    exact good_mk_of s none (some l) hl hG

end CreateAttach

namespace CreateAttach

theorem good_init (cfg : Option (Nat × Bool)) : Good (initAttach cfg) := by
  cases cfg with
  | none =>
      exact ⟨List.nodup_nil, by simp [initAttach], by simp [stored, initAttach],
        by simp [stored, initAttach], by simp [stored, initAttach],
        by intro l2 h2; simp [initAttach] at h2⟩
  | some p =>
      obtain ⟨hid, once⟩ := p
      refine ⟨List.nodup_nil, by simp [initAttach], ?_, ?_, ?_, ?_⟩
      · simp [stored, initAttach, cleanupsOf]
      · simp [stored, initAttach, cleanupsOf]
      · simp [stored, initAttach, cleanupsOf]
      · intro l2 h2
        simp only [initAttach, Option.some.injEq] at h2
        rw [← h2]
        simp

theorem good_foldl (beh : Nat → Option Nat → Bool) (hbeh : ∀ h2 x, beh h2 x = true) :
    ∀ (ops : List AOp) (s : AttachState), (∀ op ∈ ops, legalA op = true) → Good s →
      Good (ops.foldl (stepA beh) s)
  | [] => by intro s _ hG; exact hG
  | op :: rest => by
      intro s hleg hG
      rw [List.foldl_cons]
      exact good_foldl beh hbeh rest (stepA beh s op)
        (fun o ho => hleg o (List.mem_cons_of_mem op ho))
        (good_step beh hbeh op (hleg op (List.mem_cons_self op rest)) s hG)

theorem good_runA (beh : Nat → Option Nat → Bool) (hbeh : ∀ h2 x, beh h2 x = true)
    (cfg : Option (Nat × Bool)) (ops : List AOp) (hleg : ∀ op ∈ ops, legalA op = true) :
    Good (runA beh cfg ops) :=
  good_foldl beh hbeh ops (initAttach cfg) hleg (good_init cfg)

theorem once_not_in_filter (k : String) (d : EventData) :
    ∀ l : List (String × EventData), (l.map Prod.fst).Nodup → (k, d) ∈ l →
      d.once = true → k ∉ (l.filter (fun p => !p.2.once)).map Prod.fst
  | [] => by simp
  | (k1, d1) :: rest => by
      intro hnd hmem ho
      simp only [List.map_cons, List.nodup_cons] at hnd
      rcases List.mem_cons.mp hmem with h1 | h1
      · injection h1 with hk hd
        subst hk
        subst hd
        have hf : (!d.once) = false := by simp [ho]
        simp only [List.filter_cons, hf, Bool.false_eq_true, if_false]
        intro hc
        exact hnd.1 ((List.Sublist.map Prod.fst (List.filter_sublist rest)).subset hc)
      · have hkr : k ∈ rest.map Prod.fst := List.mem_map.mpr ⟨(k, d), h1, rfl⟩
        have hne : k ≠ k1 := by
          intro he
          subst he
          exact hnd.1 hkr
        by_cases h2 : (!d1.once) = true
        · simp only [List.filter_cons, h2, if_true, List.map_cons, List.mem_cons]
          intro hc
          rcases hc with hc | hc
          · exact hne hc
          · exact once_not_in_filter k d rest hnd.2 h1 ho hc
        · simp only [Bool.not_eq_true] at h2
          simp only [List.filter_cons, h2, Bool.false_eq_true, if_false]
          exact once_not_in_filter k d rest hnd.2 h1 ho

end CreateAttach

namespace BoolLazyFalse

theorem fst_unsched (h : Nat) (l : List (Nat × Bool)) :
    ((l.map (fun p => if p.1 == h then (p.1, false) else p)).map Prod.fst) = l.map Prod.fst := by
  rw [List.map_map]
  apply List.map_congr_left
  intro p hp
  by_cases hq : (p.1 == h) = true
  · simp [Function.comp, hq]
  · simp [Function.comp, hq]

theorem mem_unsched_sched (h : Nat) (l : List (Nat × Bool)) (p : Nat × Bool)
    (hm : p ∈ l.map (fun p => if p.1 == h then (p.1, false) else p)) (hs : p.2 = true) :
    p ∈ l ∧ p.1 ≠ h := by
  obtain ⟨q, hq, hfq⟩ := List.mem_map.mp hm
  by_cases hqh : (q.1 == h) = true
  · rw [if_pos hqh] at hfq
    rw [← hfq] at hs
    simp at hs
  · rw [if_neg hqh] at hfq
    subst hfq
    exact ⟨hq, by simpa using hqh⟩

theorem bound_unsched (h : Nat) (l : List (Nat × Bool)) (n : Nat)
    (hb : ∀ p ∈ l, p.1 < n) :
    ∀ p ∈ l.map (fun p => if p.1 == h then (p.1, false) else p), p.1 < n := by
  intro p hm
  obtain ⟨q, hq, hfq⟩ := List.mem_map.mp hm
  have := hb q hq
  by_cases hqh : (q.1 == h) = true
  · rw [if_pos hqh] at hfq
    rw [← hfq]
    simpa using this
  · rw [if_neg hqh] at hfq
    subst hfq
    exact this

theorem no_sched_after_clear (w : TriW) (hI : TInv w) :
    ∀ p ∈ (clearTimeouts w).timers, p.2 ≠ true := by
  intro p hm hs
  simp only [clearTimeouts] at hm
  cases hv : w.timeoutVar with
  | none =>
      rw [hv] at hm
      have := (hI.2.2 p hm hs).1
      rw [hv] at this
      cases this
  | some h0 =>
      rw [hv] at hm
      obtain ⟨hmem, hne⟩ := mem_unsched_sched h0 w.timers p hm hs
      have := (hI.2.2 p hmem hs).1
      rw [hv] at this
      injection this with h2
      exact hne h2.symm

theorem tinv_init (b : Bool) : TInv (initT b) := by
  refine ⟨by simp [initT], by simp [initT], by simp [initT]⟩

theorem tinv_step (w : TriW) (e : TEv) (hI : TInv w) : TInv (stepT w e) := by
  cases e with
  | setE v cb =>
      show TInv (set v cb w)
      rw [set]
      by_cases hg : (!(v && !(w.state == BState.TRUE)) && !(!v && (w.state == BState.TRUE))) = true
      · rw [if_pos hg]
        exact hI
      · rw [if_neg hg]
        by_cases hbt : (v && !(w.state == BState.TRUE)) = true
        · simp only [hbt, if_true]
          refine ⟨?_, ?_, ?_⟩
          · show (((clearTimeouts w).timers).map Prod.fst).Nodup
            simp only [clearTimeouts]
            cases hv : w.timeoutVar with
            | none => exact hI.1
            | some h0 => rw [fst_unsched]; exact hI.1
          · intro p hm
            have hb : ∀ p ∈ w.timers, p.1 < w.nextT := hI.2.1
            show p.1 < w.nextT
            simp only [clearTimeouts] at hm
            cases hv : w.timeoutVar with
            | none => rw [hv] at hm; exact hb p hm
            | some h0 => rw [hv] at hm; exact bound_unsched h0 w.timers w.nextT hb p hm
          · intro p hm hs
            exact absurd hs (no_sched_after_clear w hI p hm)
        · simp only [hbt, Bool.false_eq_true, if_false]
          refine ⟨?_, ?_, ?_⟩
          · show ((((clearTimeouts w).timers) ++ [(w.nextT, true)]).map Prod.fst).Nodup
            rw [List.map_append]
            refine List.Nodup.append ?_ (by simp) ?_
            · simp only [clearTimeouts]
              cases hv : w.timeoutVar with
              | none => exact hI.1
              | some h0 => rw [fst_unsched]; exact hI.1
            · intro a ha hb2
              simp only [List.map_cons, List.map_nil, List.mem_singleton] at hb2
              simp only [clearTimeouts] at ha
              have hlt : a < w.nextT := by
                cases hv : w.timeoutVar with
                | none =>
                    rw [hv] at ha
                    obtain ⟨q, hq, hfq⟩ := List.mem_map.mp ha
                    rw [← hfq]
                    exact hI.2.1 q hq
                | some h0 =>
                    rw [hv] at ha
                    rw [fst_unsched] at ha
                    obtain ⟨q, hq, hfq⟩ := List.mem_map.mp ha
                    rw [← hfq]
                    exact hI.2.1 q hq
              omega
          · intro p hm
            rcases List.mem_append.mp hm with h1 | h1
            · show p.1 < w.nextT + 1
              simp only [clearTimeouts] at h1
              cases hv : w.timeoutVar with
              | none =>
                  rw [hv] at h1
                  have := hI.2.1 p h1
                  omega
              | some h0 =>
                  rw [hv] at h1
                  have := bound_unsched h0 w.timers w.nextT hI.2.1 p h1
                  omega
            · simp only [List.mem_singleton] at h1
              subst h1
              show w.nextT < w.nextT + 1
              omega
          · intro p hm hs
            rcases List.mem_append.mp hm with h1 | h1
            · exact absurd hs (no_sched_after_clear w hI p h1)
            · simp only [List.mem_singleton] at h1
              subst h1
              exact ⟨rfl, rfl⟩
  | timerE h =>
      show TInv (timerFire h w)
      rw [timerFire]
      by_cases hmem : (h, true) ∈ w.timers
      · rw [if_pos hmem]
        have hvar : w.timeoutVar = some h ∧ w.state = BState.BECOMING_FALSE :=
          hI.2.2 (h, true) hmem rfl
        have hkey : (((w.timers.map (fun p => if p.1 == h then (p.1, false) else p))).map Prod.fst).Nodup := by
          rw [fst_unsched]
          exact hI.1
        have hbnd : ∀ p ∈ w.timers.map (fun p => if p.1 == h then (p.1, false) else p),
            p.1 < w.nextT := bound_unsched h w.timers w.nextT hI.2.1
        have hnos : ∀ p ∈ w.timers.map (fun p => if p.1 == h then (p.1, false) else p),
            p.2 = true → False := by
          intro p hm hs
          obtain ⟨hmw, hne⟩ := mem_unsched_sched h w.timers p hm hs
          have := (hI.2.2 p hmw hs).1
          rw [hvar.1] at this
          injection this with h2
          exact hne h2.symm
        by_cases hst : (w.state == BState.FALSE) = true
        · rw [if_pos hst]
          exact ⟨hkey, hbnd, fun p hm hs => absurd (hnos p hm hs) not_false⟩
        · rw [if_neg hst]
          exact ⟨hkey, hbnd, fun p hm hs => absurd (hnos p hm hs) not_false⟩
      · rw [if_neg hmem]
        exact hI

theorem tinv_run (b : Bool) (evs : List TEv) : TInv (runT b evs) := by
  rw [runT]
  have hgen : ∀ (l : List TEv) (w : TriW), TInv w → TInv (l.foldl stepT w) := by
    intro l
    induction l with
    | nil => intro w hw; exact hw
    | cons e rest ih =>
        intro w hw
        rw [List.foldl_cons]
        exact ih (stepT w e) (tinv_step w e hw)
  exact hgen evs (initT b) (tinv_init b)

theorem countP_sched_le_one :
    ∀ (l : List (Nat × Bool)) (h0 : Nat), (l.map Prod.fst).Nodup →
      (∀ p ∈ l, p.2 = true → p.1 = h0) → l.countP (fun p => p.2) ≤ 1
  | [], h0 => by simp
  | q :: rest, h0 => by
      intro hnd hall
      simp only [List.map_cons, List.nodup_cons] at hnd
      rw [List.countP_cons]
      by_cases hq : q.2 = true
      · have hz : rest.countP (fun p => p.2) = 0 := by
          rw [List.countP_eq_zero]
          intro p hp hps
          have h1 : p.1 = h0 := hall p (List.mem_cons_of_mem q hp) hps
          have h2 : q.1 = h0 := hall q (List.mem_cons_self q rest) hq
          apply hnd.1
          rw [h2, ← h1]
          exact List.mem_map.mpr ⟨p, hp, rfl⟩
        simp [hz, hq]
      · have hle := countP_sched_le_one rest h0 hnd.2
          (fun p hp hps => hall p (List.mem_cons_of_mem q hp) hps)
        have hq2 : q.2 = false := by simpa using hq
        simp only [hq2, Bool.false_eq_true, if_false]
        omega

end BoolLazyFalse

namespace OverlaySystem

theorem updateVis_close (id : String) (b : Bool) (w : RegWorld) :
    updateVis id b false w =
      { w with
        openOverlays := w.openOverlays.erase id,
        topmost := (w.openOverlays.erase id).getLast?,
        scrollLockCount :=
          if b && w.openOverlays.contains id then w.scrollLockCount - 1
          else w.scrollLockCount } := by
  rw [updateVis]
  by_cases hmem : id ∈ w.openOverlays
  · have hco : w.openOverlays.contains id = true := by simpa using hmem
    by_cases hb : b = true
    · simp [hb, hco, hmem]
    · simp [hb, hco, hmem]
  · have hco : w.openOverlays.contains id = false := by simpa using hmem
    by_cases hb : b = true
    · simp [hb, hco, hmem]
    · simp [hb, hco, hmem]

theorem afterCloseSpec_of (id : String) (w : RegWorld) (e : Entry)
    (he : lookupKey id w.overlays = some e) (ht : e.visTimer = true)
    (hc : e.visCb = some CbKind.closing) :
    AfterCloseSpec id e w := by
  have hred : timerEvent id w =
      runClosingBody id e.wasScrollLocked e.onAfterClose
        { w with overlays := setKey id { e with visState := BoolLazyFalse.BState.FALSE, visTimer := false } w.overlays } := by
    simp only [timerEvent, he, ht, hc, Bool.not_true, Bool.false_eq_true, if_false]
  have hov : ∀ w2 : RegWorld,
      (runClosingBody id e.wasScrollLocked e.onAfterClose w2).overlays = w2.overlays := by
    intro w2
    cases hoa : e.onAfterClose with
    | none => simp [runClosingBody, updateVis_close]
    | some c => cases c <;> simp [runClosingBody, updateVis_close]
  refine ⟨?_, ?_, ?_, ?_⟩
  · rw [hred, hov]
    simp [lookupKey_setKey]
  · intro c hoa
    rw [hred]
    cases c with
    | true =>
        simp only [runClosingBody, hoa]
        exact ⟨[], by simp⟩
    | false =>
        simp only [runClosingBody, hoa, updateVis_close]
        exact ⟨[TraceEv.detachEl id, TraceEv.closeBook id], by simp⟩
  · intro hoa
    rw [hred]
    simp [runClosingBody, hoa]
  · intro hne
    rw [hred]
    cases hoa : e.onAfterClose with
    | none =>
        simp only [runClosingBody, hoa, updateVis_close]
        refine ⟨by simp, by simp, by simp, w.trace, by simp, fun _ => rfl⟩
    | some c =>
        cases c with
        | true => exact absurd hoa hne
        | false =>
            simp only [runClosingBody, hoa, updateVis_close]
            refine ⟨by simp, by simp, by simp, w.trace ++ [TraceEv.afterClose id], by simp, ?_⟩
            intro hcon
            simp at hcon

theorem clamp_nonneg (w : RegWorld) : 0 ≤ (clampEffect w).scrollLockCount := by
  rw [clampEffect]
  by_cases hlt : w.scrollLockCount < 0
  · simp [hlt]
  · simp only [hlt, if_false]
    omega

theorem stepR_nonneg (w : RegWorld) (e : REvent) : 0 ≤ (stepR w e).scrollLockCount := by
  cases e <;> exact clamp_nonneg _

end OverlaySystem

namespace OverlaySystem

theorem foldlR_nonneg :
    ∀ (l : List REvent) (w : RegWorld), 0 ≤ w.scrollLockCount →
      0 ≤ (l.foldl stepR w).scrollLockCount
  | [] => by intro w h; exact h
  | e :: rest => by
      intro w _
      rw [List.foldl_cons]
      exact foldlR_nonneg rest (stepR w e) (stepR_nonneg w e)

end OverlaySystem

/-- C1 (counterexample): register overlay "m" with scroll lock and a
cancelling onAfterClose hook, open it, close it, and let the delayed
exit land.  The exit transition has completed (the entry's state is
FALSE) and onAfterClose has run, yet "m" is still in the open set, the
scroll-lock count is still 1, and no close-bookkeeping event was ever
traced — so the bookkeeping did not happen before the hook, and the
hook's cancellation did suppress it, contrary to the claim. -/
theorem c1_counterexample :
    (AssocList.lookupKey "m" (OverlaySystem.runR [OverlaySystem.REvent.register "m"
        { lockScroll := some true, onAfterClose := some true }, OverlaySystem.REvent.openO "m",
        OverlaySystem.REvent.closeO "m", OverlaySystem.REvent.timer "m"]).overlays).map
      OverlaySystem.Entry.visState = some BoolLazyFalse.BState.FALSE ∧
    OverlaySystem.isOpen "m" (OverlaySystem.runR [OverlaySystem.REvent.register "m"
        { lockScroll := some true, onAfterClose := some true }, OverlaySystem.REvent.openO "m",
        OverlaySystem.REvent.closeO "m", OverlaySystem.REvent.timer "m"]) = true ∧
    (OverlaySystem.runR [OverlaySystem.REvent.register "m"
        { lockScroll := some true, onAfterClose := some true }, OverlaySystem.REvent.openO "m",
        OverlaySystem.REvent.closeO "m", OverlaySystem.REvent.timer "m"]).scrollLockCount = 1 ∧
    (OverlaySystem.runR [OverlaySystem.REvent.register "m"
        { lockScroll := some true, onAfterClose := some true }, OverlaySystem.REvent.openO "m",
        OverlaySystem.REvent.closeO "m", OverlaySystem.REvent.timer "m"]).trace =
      [OverlaySystem.TraceEv.openBook "m", OverlaySystem.TraceEv.afterClose "m"] := by
  refine ⟨by decide, by decide, by decide, by decide⟩

/-- C1 (amended): once the delayed exit of a registered overlay lands,
the completed transition to FALSE is committed, and the completion
callback runs the onAfterClose hook FIRST; if the hook cancels, the
element detach and the whole registry bookkeeping (open set, topmost,
scroll-lock count) are skipped, though the state transition stands;
otherwise the Attachment is detached and then the close bookkeeping is
applied (remove the id, recompute topmost, decrement the scroll-lock
count if held). -/
theorem c1_amended (id : String) (w : OverlaySystem.RegWorld) (e : OverlaySystem.Entry)
    (he : AssocList.lookupKey id w.overlays = some e) (ht : e.visTimer = true)
    (hc : e.visCb = some OverlaySystem.CbKind.closing) :
    OverlaySystem.AfterCloseSpec id e w :=
  OverlaySystem.afterCloseSpec_of id w e he ht hc

/-- C1 (witness): the amended claim instantiated at the concrete world
in which "m" is closing with a cancelling onAfterClose hook. -/
theorem c1_amended_witness :
    (AssocList.lookupKey "m" OverlaySystem.closingWorld.overlays =
        some OverlaySystem.closingEntry ∧
      OverlaySystem.closingEntry.visTimer = true ∧
      OverlaySystem.closingEntry.visCb = some OverlaySystem.CbKind.closing) ∧
    OverlaySystem.AfterCloseSpec "m" OverlaySystem.closingEntry OverlaySystem.closingWorld :=
  ⟨⟨by decide, rfl, rfl⟩,
    c1_amended "m" OverlaySystem.closingWorld OverlaySystem.closingEntry (by decide) rfl rfl⟩

/-- C2 (counterexample): an Attachment with element 5 bound; calling
onAttach registers the handler but the handler-call trace stays empty —
the new handler is NOT immediately invoked with the bound element. -/
theorem c2_counterexample :
    (CreateAttach.attach CreateAttach.alwaysDisposer (some 5)
      (CreateAttach.initAttach none)).element = some 5 ∧
    (CreateAttach.onAttach 0 "k" false (CreateAttach.attach CreateAttach.alwaysDisposer (some 5)
      (CreateAttach.initAttach none))).calls = [] := by
  exact ⟨by decide, by decide⟩

/-- C2 (amended): onAttach(handler, key, once) runs the cleanup of any
listener already stored under the key and replaces it with the new
handler (with no captured cleanup); it never invokes any handler and
leaves the bound element unchanged — the handler first fires on the
next attach call, even when an element is currently bound. -/
theorem c2_amended (hid : Nat) (key : String) (once : Bool) (s : CreateAttach.AttachState) :
    (CreateAttach.onAttach hid key once s).calls = s.calls ∧
    (CreateAttach.onAttach hid key once s).element = s.element ∧
    (CreateAttach.onAttach hid key once s).invoked = s.invoked ++
      ((s.listeners.bind (AssocList.lookupKey key)).bind
        (fun d => d.cleanupFn)).toList ∧
    (CreateAttach.onAttach hid key once s).listeners.bind (AssocList.lookupKey key) =
      some ⟨hid, once, none⟩ := by
  cases hl : s.listeners with
  | none => simp [CreateAttach.onAttach, hl, AssocList.lookupKey]
  | some l => simp [CreateAttach.onAttach, hl, AssocList.lookupKey_setKey]

/-- C3: in every registry state reachable by any sequence of events
(register, unregister, open, close, their completion timers, and
orphaned timers), the scroll-lock count is non-negative: the decrement
path can transiently drive the raw count below zero, but the
scroll-lock effect clamps it to zero before the operation returns. -/
theorem c3_scrollLockCount_nonneg (evs : List OverlaySystem.REvent) :
    0 ≤ (OverlaySystem.runR evs).scrollLockCount := by
  rw [OverlaySystem.runR]
  exact OverlaySystem.foldlR_nonneg evs OverlaySystem.initR (by decide)

/-- C4 (counterexample): with a handler that always returns a disposer,
run attach(1), then detach({clearEvents: true, clearDefaultEvent: false,
eventsOnly: true}), then attach(2).  The detach runs the captured
disposer 0 but retains the default listener as a copy still holding
disposer 0; the next attach runs the cleanup pass again, so disposer 0
is invoked twice — cleanup is not at-most-once. -/
theorem c4_counterexample :
    (CreateAttach.runA CreateAttach.alwaysDisposer (some (0, false))
      [CreateAttach.AOp.attachOp (some 1),
       CreateAttach.AOp.detachOptsOp ⟨none, true, false, true⟩,
       CreateAttach.AOp.attachOp (some 2)]).invoked = [0, 0] ∧
    ¬ (CreateAttach.runA CreateAttach.alwaysDisposer (some (0, false))
      [CreateAttach.AOp.attachOp (some 1),
       CreateAttach.AOp.detachOptsOp ⟨none, true, false, true⟩,
       CreateAttach.AOp.attachOp (some 2)]).invoked.Nodup := by
  exact ⟨by decide, by decide⟩

/-- C4 (amended): provided every handler invocation returns a disposer,
and detach is never called with an options object combining
clearEvents=true and clearDefaultEvent=false (the form that retains the
default listener as a copy of already-cleaned state), every disposer
captured from a handler is invoked at most once across any sequence of
attach, onAttach and detach operations. -/
theorem c4_amended (beh : Nat → Option Nat → Bool) (cfg : Option (Nat × Bool))
    (ops : List CreateAttach.AOp) (hbeh : ∀ h2 x, beh h2 x = true)
    (hleg : ∀ op ∈ ops, CreateAttach.legalA op = true) :
    (CreateAttach.runA beh cfg ops).invoked.Nodup :=
  (CreateAttach.good_runA beh hbeh cfg ops hleg).invNodup

/-- C4 (witness): the amended claim at a concrete run that mounts,
removes the default listener, and unmounts. -/
theorem c4_amended_witness :
    (∀ h2 x, CreateAttach.alwaysDisposer h2 x = true) ∧
    (∀ op ∈ [CreateAttach.AOp.attachOp (some 1), CreateAttach.AOp.detachKeyOp "default",
        CreateAttach.AOp.attachOp none], CreateAttach.legalA op = true) ∧
    (CreateAttach.runA CreateAttach.alwaysDisposer (some (0, false))
      [CreateAttach.AOp.attachOp (some 1), CreateAttach.AOp.detachKeyOp "default",
       CreateAttach.AOp.attachOp none]).invoked.Nodup :=
  ⟨fun _ _ => rfl, by decide,
    c4_amended CreateAttach.alwaysDisposer (some (0, false))
      [CreateAttach.AOp.attachOp (some 1), CreateAttach.AOp.detachKeyOp "default",
       CreateAttach.AOp.attachOp none] (fun _ _ => rfl) (by decide)⟩

/-- C5 (counterexample): after register A, register B, open A, open B,
open A, the third open is a silent no-op (the visibility machine ignores
set(true) when already TRUE, so the bookkeeping callback never runs):
isTopmost("A") is FALSE and isTopmost("B") is TRUE, contrary to the
claim. -/
theorem c5_counterexample :
    OverlaySystem.isTopmost "A" (OverlaySystem.runR [OverlaySystem.REvent.register "A" {},
      OverlaySystem.REvent.register "B" {}, OverlaySystem.REvent.openO "A",
      OverlaySystem.REvent.openO "B", OverlaySystem.REvent.openO "A"]) = false ∧
    OverlaySystem.isTopmost "B" (OverlaySystem.runR [OverlaySystem.REvent.register "A" {},
      OverlaySystem.REvent.register "B" {}, OverlaySystem.REvent.openO "A",
      OverlaySystem.REvent.openO "B", OverlaySystem.REvent.openO "A"]) = true := by
  exact ⟨by decide, by decide⟩

/-- C5 (amended): re-opening an already fully open overlay is a no-op,
so after open A, open B, open A the topmost overlay is B (A keeps its
original position); closing B (and letting its exit land) makes A
topmost, and closing the last open overlay leaves no topmost entry and
an empty open set. -/
theorem c5_amended :
    OverlaySystem.isTopmost "B" (OverlaySystem.runR [OverlaySystem.REvent.register "A" {},
      OverlaySystem.REvent.register "B" {}, OverlaySystem.REvent.openO "A",
      OverlaySystem.REvent.openO "B", OverlaySystem.REvent.openO "A"]) = true ∧
    OverlaySystem.isTopmost "A" (OverlaySystem.runR [OverlaySystem.REvent.register "A" {},
      OverlaySystem.REvent.register "B" {}, OverlaySystem.REvent.openO "A",
      OverlaySystem.REvent.openO "B", OverlaySystem.REvent.openO "A"]) = false ∧
    OverlaySystem.isOpen "A" (OverlaySystem.runR [OverlaySystem.REvent.register "A" {},
      OverlaySystem.REvent.register "B" {}, OverlaySystem.REvent.openO "A",
      OverlaySystem.REvent.openO "B", OverlaySystem.REvent.openO "A"]) = true ∧
    OverlaySystem.isTopmost "A" (OverlaySystem.runR [OverlaySystem.REvent.register "A" {},
      OverlaySystem.REvent.register "B" {}, OverlaySystem.REvent.openO "A",
      OverlaySystem.REvent.openO "B", OverlaySystem.REvent.openO "A",
      OverlaySystem.REvent.closeO "B", OverlaySystem.REvent.timer "B"]) = true ∧
    (OverlaySystem.runR [OverlaySystem.REvent.register "A" {},
      OverlaySystem.REvent.register "B" {}, OverlaySystem.REvent.openO "A",
      OverlaySystem.REvent.openO "B", OverlaySystem.REvent.openO "A",
      OverlaySystem.REvent.closeO "B", OverlaySystem.REvent.timer "B",
      OverlaySystem.REvent.closeO "A", OverlaySystem.REvent.timer "A"]).topmost = none ∧
    (OverlaySystem.runR [OverlaySystem.REvent.register "A" {},
      OverlaySystem.REvent.register "B" {}, OverlaySystem.REvent.openO "A",
      OverlaySystem.REvent.openO "B", OverlaySystem.REvent.openO "A",
      OverlaySystem.REvent.closeO "B", OverlaySystem.REvent.timer "B",
      OverlaySystem.REvent.closeO "A", OverlaySystem.REvent.timer "A"]).openOverlays = [] := by
  refine ⟨by decide, by decide, by decide, by decide, by decide, by decide⟩

/-- C6: on a fresh instance, set(true), then set(false, cb), then
set(true) before the delay elapses: lazyBool reads true after every
call, no stored callback ever fires (the discarded exit transition's
callback cb, labelled 7, is never invoked), and the cancelled timer
landing afterwards is a no-op for every handle. -/
theorem c6_reopen_before_delay :
    BoolLazyFalse.lazyBool (BoolLazyFalse.runT false
      [BoolLazyFalse.TEv.setE true none]) = true ∧
    BoolLazyFalse.lazyBool (BoolLazyFalse.runT false
      [BoolLazyFalse.TEv.setE true none, BoolLazyFalse.TEv.setE false (some 7)]) = true ∧
    BoolLazyFalse.lazyBool (BoolLazyFalse.runT false
      [BoolLazyFalse.TEv.setE true none, BoolLazyFalse.TEv.setE false (some 7),
       BoolLazyFalse.TEv.setE true none]) = true ∧
    (BoolLazyFalse.runT false
      [BoolLazyFalse.TEv.setE true none, BoolLazyFalse.TEv.setE false (some 7),
       BoolLazyFalse.TEv.setE true none]).fired = [] ∧
    ∀ h, BoolLazyFalse.timerFire h (BoolLazyFalse.runT false
      [BoolLazyFalse.TEv.setE true none, BoolLazyFalse.TEv.setE false (some 7),
       BoolLazyFalse.TEv.setE true none]) =
      BoolLazyFalse.runT false
        [BoolLazyFalse.TEv.setE true none, BoolLazyFalse.TEv.setE false (some 7),
         BoolLazyFalse.TEv.setE true none] := by
  refine ⟨by decide, by decide, by decide, by decide, ?_⟩
  intro h
  rw [BoolLazyFalse.timerFire]
  have hnm : ¬((h, true) ∈ (BoolLazyFalse.runT false
      [BoolLazyFalse.TEv.setE true none, BoolLazyFalse.TEv.setE false (some 7),
       BoolLazyFalse.TEv.setE true none]).timers) := by
    intro hm
    have htimers : (BoolLazyFalse.runT false
        [BoolLazyFalse.TEv.setE true none, BoolLazyFalse.TEv.setE false (some 7),
         BoolLazyFalse.TEv.setE true none]).timers = [(0, false)] := by decide
    rw [htimers] at hm
    simp at hm
  rw [if_neg hnm]

/-- C7: in every reachable state of a createBoolLazyFalse instance, at
most one delayed transition is pending (every transition request cancels
the outstanding timer first), and a pending (scheduled, uncancelled,
unfired) timer exists only while the state is BECOMING_FALSE. -/
theorem c7_timer_pending_only_becoming_false (b : Bool) (evs : List BoolLazyFalse.TEv) :
    (BoolLazyFalse.runT b evs).timers.countP (fun p => p.2) ≤ 1 ∧
    ∀ p ∈ (BoolLazyFalse.runT b evs).timers, p.2 = true →
      (BoolLazyFalse.runT b evs).state = BoolLazyFalse.BState.BECOMING_FALSE := by
  have hI := BoolLazyFalse.tinv_run b evs
  constructor
  · cases hv : (BoolLazyFalse.runT b evs).timeoutVar with
    | none =>
        have hz : (BoolLazyFalse.runT b evs).timers.countP (fun p => p.2) = 0 := by
          rw [List.countP_eq_zero]
          intro p hp hps
          have h2 := (hI.2.2 p hp hps).1
          rw [hv] at h2
          cases h2
        omega
    | some h0 =>
        refine BoolLazyFalse.countP_sched_le_one _ h0 hI.1 ?_
        intro p hp hs
        have h2 := (hI.2.2 p hp hs).1
        rw [hv] at h2
        injection h2 with h3
        exact h3.symm
  · intro p hp hs
    exact (hI.2.2 p hp hs).2

/-- C8: calling detach with an options object where eventsOnly is true
while clearEvents and clearDefaultEvent are both false (and no key is
given) throws immediately — before any listener cleanup runs — so the
state is not touched at all (the operation returns only the error). -/
theorem c8_invalid_detach_options (s : CreateAttach.AttachState) :
    CreateAttach.detachWithOptions
      { key := none, clearEvents := false, clearDefaultEvent := false, eventsOnly := true } s =
      Except.error "Incompatible parameters: eventsOnly=true requires either clearEvents=true OR clearDefaultEvent=true" :=
  rfl

/-- C9: openOverlay, closeOverlay and unregisterOverlay on an id that is
not in the overlay map return the whole registry store unchanged. -/
theorem c9_unknown_id_noop (id : String) (w : OverlaySystem.RegWorld)
    (h : AssocList.lookupKey id w.overlays = none) :
    OverlaySystem.openOverlay id w = w ∧ OverlaySystem.closeOverlay id w = w ∧
      OverlaySystem.unregisterOverlay id w = w := by
  refine ⟨?_, ?_, ?_⟩
  · simp [OverlaySystem.openOverlay, h]
  · simp [OverlaySystem.closeOverlay, h]
  · simp [OverlaySystem.unregisterOverlay, h]

/-- C9 (witness): the unknown-id no-op at a concrete world with one
open overlay and the unknown id "ghost". -/
theorem c9_unknown_id_noop_witness :
    AssocList.lookupKey "ghost" OverlaySystem.sampleWorld.overlays = none ∧
    (OverlaySystem.openOverlay "ghost" OverlaySystem.sampleWorld = OverlaySystem.sampleWorld ∧
      OverlaySystem.closeOverlay "ghost" OverlaySystem.sampleWorld = OverlaySystem.sampleWorld ∧
      OverlaySystem.unregisterOverlay "ghost" OverlaySystem.sampleWorld =
        OverlaySystem.sampleWorld) :=
  ⟨by decide, c9_unknown_id_noop "ghost" OverlaySystem.sampleWorld (by decide)⟩

/-- C10: calling attach(undefined) on an instance with an element bound
and a non-empty listener map clears the element, runs every captured
cleanup first (in registration order), invokes every handler with
undefined, and removes every once listener even though it never
received an actual element. -/
theorem c10_unmount (beh : Nat → Option Nat → Bool) (s : CreateAttach.AttachState)
    (e0 : Nat) (l : List (String × CreateAttach.EventData)) (h1 : s.element = some e0)
    (h2 : s.listeners = some l) (_h3 : l ≠ []) (h4 : (l.map Prod.fst).Nodup) :
    CreateAttach.UnmountSpec beh s l := by
  have hne : ¬((none : Option Nat) = some e0) := by simp
  have hred : CreateAttach.attach beh none s =
      { element := none,
        listeners := some (CreateAttach.fireAll beh none l s.nextDisposer
          (s.invoked ++ CreateAttach.cleanupsOf l) s.calls).kept,
        nextDisposer := (CreateAttach.fireAll beh none l s.nextDisposer
          (s.invoked ++ CreateAttach.cleanupsOf l) s.calls).next,
        invoked := (CreateAttach.fireAll beh none l s.nextDisposer
          (s.invoked ++ CreateAttach.cleanupsOf l) s.calls).invoked,
        calls := (CreateAttach.fireAll beh none l s.nextDisposer
          (s.invoked ++ CreateAttach.cleanupsOf l) s.calls).calls } := by
    simp only [CreateAttach.attach, h1, h2, if_neg hne]
  refine ⟨?_, ?_, ?_, ?_⟩
  · rw [hred]
  · rw [hred]
    exact CreateAttach.fireAll_calls beh none l s.nextDisposer
      (s.invoked ++ CreateAttach.cleanupsOf l) s.calls
  · rw [hred]
    exact CreateAttach.fireAll_invoked_mono beh none l s.nextDisposer
      (s.invoked ++ CreateAttach.cleanupsOf l) s.calls
  · rw [hred]
    refine ⟨(CreateAttach.fireAll beh none l s.nextDisposer
      (s.invoked ++ CreateAttach.cleanupsOf l) s.calls).kept, rfl, ?_⟩
    intro k d2 hm ho
    by_contra hcon
    rw [Bool.not_eq_false] at hcon
    have hmemk := (AssocList.hasKey_iff_mem_keys k _).mp hcon
    rw [CreateAttach.fireAll_keys] at hmemk
    exact CreateAttach.once_not_in_filter k d2 l h4 hm ho hmemk

/-- C10 (witness): the unmount behaviour at a concrete bound instance
with a once listener under "a" and a plain listener under "b". -/
theorem c10_unmount_witness :
    (CreateAttach.boundState.element = some 3 ∧
      CreateAttach.boundState.listeners = some CreateAttach.boundListeners ∧
      CreateAttach.boundListeners ≠ [] ∧
      (CreateAttach.boundListeners.map Prod.fst).Nodup) ∧
    CreateAttach.UnmountSpec CreateAttach.alwaysDisposer CreateAttach.boundState
      CreateAttach.boundListeners :=
  ⟨⟨by decide, by decide, by decide, by decide⟩,
    c10_unmount CreateAttach.alwaysDisposer CreateAttach.boundState 3
      CreateAttach.boundListeners (by decide) (by decide) (by decide) (by decide)⟩
